import Mathlib

/-!
# A shallow embedding of the `uir` package manager (`main.go`)

The development models the file system as a finite table from cleaned
absolute paths to nodes, and every function of `main.go` that touches it as
a pure function on that table.

Modelling boundary.
* A path is resolved component by component; `..` is the lexical parent. The
  table keeps a symbolic link as a leaf and no function follows one, so the
  embedding is that of the program on paths that are reached without meeting
  a symbolic link (`plainWay`, `plain`, `plainDest`). The theorems that say
  which paths a whole command changes (C1, C5, C6, C7, C10) have this
  condition among their hypotheses; the others are stated relative to what
  the primitives answer. Links elsewhere in the tree are treated as the
  kernel treats them: `os.Remove` and `os.RemoveAll` take a link away, never
  what it points to.
* The kernel refuses some names (`badName`: `ENAMETOOLONG`, `EINVAL`) and some
  unlinks (`Env.busy`: a mount point, an immutable file). Other failures of
  the machine (a full or read-only disk, an I/O error) are not modelled.
* JSON documents are abstracted to what they decode to: a file holds a
  manifest, a registry mapping, or bytes that decode to neither.
* `tar` is the function that creates the members of an archive below the
  extraction directory.
-/

namespace Uir

/-! ## Paths -/

/-- A cleaned absolute path, as the list of its components below `/`. -/
abbrev Path := List String

/-- The constant `UIR_DIR = "/uir_packages"`. -/
def UIR_DIR : Path := ["uir_packages"]

/-- The constant `UIR_CONFIG = "/etc/uir"`. -/
def UIR_CONFIG : Path := ["etc", "uir"]

/-- The constant `UIR_TEMP = "/tmp/uir_temp"`. -/
def UIR_TEMP : Path := ["tmp", "uir_temp"]

/-- The system binary directory `/usr/local/bin` used for links. -/
def BIN_DIR : Path := ["usr", "local", "bin"]

/-- Cut a character list at every `/`; `acc` holds the current segment reversed. -/
def splitAux : List Char → List Char → List String
  | [], acc => [String.mk acc.reverse]
  | c :: cs, acc =>
    if c = '/' then String.mk acc.reverse :: splitAux cs [] else splitAux cs (c :: acc)

/-- The `/`-separated segments of a path string (`"a//b"` gives `a`, empty, `b`). -/
def segments (s : String) : List String := splitAux s.toList []

/-- The lexical processing of `filepath.Clean` on a rooted path: `stack` is the
reversed list of components kept so far; empty and `.` segments are dropped,
`..` removes the last kept component and is dropped at the root. -/
def cleanFrom : List String → List String → List String
  | stack, [] => stack
  | stack, seg :: rest =>
    if seg = "" ∨ seg = "." then cleanFrom stack rest
    else if seg = ".." then cleanFrom stack.tail rest
    else cleanFrom (seg :: stack) rest

/-- The call `filepath.Join(base, name)` for a cleaned absolute `base`:
empty elements are ignored and the joined string is cleaned. -/
def joinPath (base : Path) (name : String) : Path :=
  (cleanFrom base.reverse (segments name)).reverse

/-- The struct `PackageConfig`; a Go map is given as the list of its entries in
the order in which a `range` loop visits them. -/
structure PackageConfig where
  Name : String
  Version : String
  Description : String
  Arch : String
  InstallPaths : List (String × String)
  BinLinks : List (String × String)
  Dependencies : List String
  deriving DecidableEq

/-- The struct `InstalledPackage`. -/
structure InstalledPackage where
  Name : String
  Version : String
  InstallDate : String
  Config : PackageConfig
  deriving DecidableEq

/-- The decoded registry `map[string]InstalledPackage`, as an association list. -/
abbrev Registry := List (String × InstalledPackage)

/-- What the bytes of a file decode to. -/
inductive Content where
  | blob (bytes : List Nat)
  | manifest (c : PackageConfig)
  | registry (r : Registry)
  deriving DecidableEq

/-- A node of the file system. -/
inductive Node where
  | file (content : Content) (mode : Nat)
  | dir (mode : Nat)
  | symlink (target : Path)
  deriving DecidableEq

/-- The file system: a table from paths to nodes; the root directory is implicit. -/
abbrev FS := List (Path × Node)

/-- What the program prints, one constructor per message. -/
inductive Msg where
  | needRoot
  | badExtension
  | archiveMissing (pkgFile : String)
  | installing (pkgFile : String)
  | extractionError
  | configError
  | alreadyInstalled (name : String)
  | copyError
  | installationError
  | symlinkError
  | databaseError
  | installSuccess (name version : String)
  | installedExecutable (src dest : String)
  | installed (src dest : String)
  | createdLink (linkName : String) (srcPath : Path)
  | notInstalled (name : String)
  | removing (name : String)
  | removed (dest : String)
  | removedLink (linkName : String)
  | removeSuccess (name : String)
  | removingSelf
  | removingDependent (name : String)
  | selfRemoved
  | parseError
  | notInDatabase (name : String)
  | info (pkg : InstalledPackage)
  deriving DecidableEq

/-- The process environment that the program reads besides the file system;
`busy` tells the paths that the kernel refuses to unlink (a mount point, an
immutable file). -/
structure Env where
  euid : Nat
  umask : Nat
  cwd : Path
  date : String
  busy : Path → Bool

/-- An archive handed to `install`: whether `os.Stat` finds it, and the entries
that `tar -xzf` creates (paths relative to the extraction directory, the
directories that it makes on the way included), or `none` when `tar` exits
with an error. -/
structure Archive where
  present : Bool
  members : Option (List (Path × Node))

/-! ## File-system primitives -/

/-- The first entry of the table for `p`. -/
def lookup : FS → Path → Option Node
  | [], _ => none
  | (q, n) :: rest, p => if q = p then some n else lookup rest p

/-- The node at `p`; the root is always a directory. -/
def node (fs : FS) (p : Path) : Option Node :=
  if p = [] then some (Node.dir 493) else lookup fs p

/-- Whether `p` is a directory. -/
def isDir (fs : FS) (p : Path) : Bool :=
  match node fs p with
  | some (Node.dir _) => true
  | _ => false

/-- The proper ancestors of a path, the root excluded. -/
def ancestors (p : Path) : List Path := (p.inits.dropLast).tail

/-- Some proper ancestor of `p` is a regular file (`ENOTDIR`). -/
def blockedByFile (fs : FS) (p : Path) : Bool :=
  (ancestors p).any fun q =>
    match lookup fs q with
    | some (Node.file _ _) => true
    | _ => false

/-- The kernel refuses the path name as such: some component is longer than
`NAME_MAX` bytes (`ENAMETOOLONG`) or holds a NUL byte (`EINVAL`), or the whole
path is longer than `PATH_MAX`. -/
def badName (p : Path) : Bool :=
  p.any (fun c => decide (255 < c.utf8ByteSize) || c.toList.any fun ch => decide (ch.toNat = 0)) ||
    decide (4095 < (p.map fun c => c.utf8ByteSize + 1).sum)

/-- Whether `p` is a symbolic link. -/
def isLink (fs : FS) (p : Path) : Bool :=
  match lookup fs p with
  | some (Node.symlink _) => true
  | _ => false

/-- No proper ancestor of `p` is a symbolic link: the kernel reaches `p` along
the lexical path. What is at `p` itself may be a link. -/
def plainWay (fs : FS) (p : Path) : Bool :=
  (ancestors p).all fun q => !isLink fs q

/-- Neither `p` nor a proper ancestor of it is a symbolic link: also a call that
follows a link at the end of its path (stat, open, create, chmod) stays at `p`. -/
def plain (fs : FS) (p : Path) : Bool :=
  plainWay fs p && !isLink fs p

/-- The path `q`, or something below it, cannot be unlinked. -/
def pinned (env : Env) (fs : FS) (q : Path) : Bool :=
  fs.any fun e => q.isPrefixOf e.1 && env.busy e.1

/-- The answer of `os.Stat`. -/
inductive StatResult where
  | found (n : Node)
  | notExist
  | otherError
  deriving DecidableEq

/-- The call `os.Stat(p)` for a path reached without a symbolic link: a name
that the kernel refuses and `ENOTDIR` are errors other than "does not
exist". A link at `p` itself is read as a dangling one. -/
def stat (fs : FS) (p : Path) : StatResult :=
  if badName p then StatResult.otherError
  else if blockedByFile fs p then StatResult.otherError
  else match node fs p with
    | some (Node.symlink _) => StatResult.notExist
    | some n => StatResult.found n
    | none => StatResult.notExist

/-- The test `os.IsNotExist(err)` on the error of `os.Stat(p)`. -/
def statNotExist (fs : FS) (p : Path) : Bool :=
  match stat fs p with
  | StatResult.notExist => true
  | _ => false

/-- Replace the node at `p`, or add it when there is none. -/
def setNode : FS → Path → Node → FS
  | [], p, n => [(p, n)]
  | (q, m) :: rest, p, n => if q = p then (q, n) :: rest else (q, m) :: setNode rest p n

/-- The call `os.RemoveAll(p)` for a path reached without a symbolic link: `p`
and everything below it goes, except what cannot be unlinked and the
directories that hold it; the error is left to the caller, who drops it. -/
def removeAll (env : Env) (fs : FS) (p : Path) : FS :=
  fs.filter fun e => !(p.isPrefixOf e.1) || pinned env fs e.1

/-- Some entry lies strictly below `p`. -/
def hasChild (fs : FS) (p : Path) : Bool :=
  fs.any fun e => p.isPrefixOf e.1 && decide (e.1 ≠ p)

/-- The call `os.Remove(p)`: removes a file, a link or an empty directory;
a directory that is not empty stays, and so does a path that cannot be
unlinked. -/
def remove (env : Env) (fs : FS) (p : Path) : FS :=
  if (isDir fs p && hasChild fs p) || env.busy p then fs
  else fs.filter fun e => decide (e.1 ≠ p)

/-- The loop of `os.MkdirAll` for a path reached without a symbolic link: `done`
is the part of the path that is known to be a directory, `todo` the
components still to visit; a name that the kernel refuses cannot be made. -/
def mkdirAllAux (mode : Nat) : FS → Path → List String → FS × Bool
  | fs, _, [] => (fs, true)
  | fs, done, c :: cs =>
    match node fs (done ++ [c]) with
    | some (Node.dir _) => mkdirAllAux mode fs (done ++ [c]) cs
    | some _ => (fs, false)
    | none =>
      if badName (done ++ [c]) then (fs, false)
      else mkdirAllAux mode (setNode fs (done ++ [c]) (Node.dir mode)) (done ++ [c]) cs

/-- The call `os.MkdirAll(p, perm)`; the flag tells whether it returned `nil`. -/
def mkdirAll (env : Env) (fs : FS) (p : Path) (perm : Nat) : FS × Bool :=
  mkdirAllAux (perm &&& (511 ^^^ env.umask)) fs [] p

/-- The call `os.Open(p)` followed by reading the whole file. -/
def readFile (fs : FS) (p : Path) : Option Content :=
  match node fs p with
  | some (Node.file c _) => some c
  | _ => none

/-- The call `os.Open(p)` succeeds: `p` is a file or a directory. -/
def canOpen (fs : FS) (p : Path) : Bool :=
  match node fs p with
  | some (Node.file _ _) => true
  | some (Node.dir _) => true
  | _ => false

/-- The call `os.Create(p)` followed by writing `c`: the parent must be a
directory; a new file gets mode `0666` less the umask, an old one keeps its
mode; `none` when the call fails. -/
def writeFile (env : Env) (fs : FS) (p : Path) (c : Content) : Option FS :=
  if p = [] ∨ badName p = true then none
  else if isDir fs p.dropLast then
    match lookup fs p with
    | none => some (setNode fs p (Node.file c (438 &&& (511 ^^^ env.umask))))
    | some (Node.file _ m) => some (setNode fs p (Node.file c m))
    | some _ => none
  else none

/-- The call `os.Chmod(p, mode)`; nothing happens when it fails. -/
def chmod (fs : FS) (p : Path) (mode : Nat) : FS :=
  match node fs p with
  | some (Node.file c _) => setNode fs p (Node.file c mode)
  | some (Node.dir _) => if p = [] then fs else setNode fs p (Node.dir mode)
  | _ => fs

/-- The call `os.Symlink(target, p)`; `none` when it fails. -/
def symlink (fs : FS) (target p : Path) : Option FS :=
  if isDir fs p.dropLast && !badName p then
    match node fs p with
    | none => some (setNode fs p (Node.symlink target))
    | some _ => none
  else none

/-- Kernel resolution of the segments of a path string from the directory
`stack` (reversed): every step is taken from a directory, `..` is the parent. -/
def walkFrom (fs : FS) : List String → List String → Option (List String)
  | stack, [] => some stack
  | stack, seg :: rest =>
    if isDir fs stack.reverse then
      if seg = "" ∨ seg = "." then walkFrom fs stack rest
      else if seg = ".." then walkFrom fs stack.tail rest
      else walkFrom fs (seg :: stack) rest
    else none

/-- Resolution of a path string as the kernel does it: an absolute string
starts at the root, a relative one at the working directory, the empty
string names nothing. -/
def resolve (env : Env) (fs : FS) (raw : String) : Option Path :=
  if raw = "" then none
  else
    match segments raw with
    | "" :: rest => (walkFrom fs [] rest).map List.reverse
    | segs => (walkFrom fs env.cwd.reverse segs).map List.reverse

/-! ## Helper functions of `main.go` -/

/-- The path of the registry file, `filepath.Join(UIR_CONFIG, "installed.json")`. -/
def dbPath : Path := joinPath UIR_CONFIG "installed.json"

/-- The extraction directory, `filepath.Join(UIR_TEMP, "install")`. -/
def extractDir : Path := joinPath UIR_TEMP "install"

/-- The function `extractTarGz`: `tar -xzf src -C dest` unpacks the members
below `dest`, which must be a directory; `none` when the command fails. -/
def extractTarGz (a : Archive) (fs : FS) (dest : Path) : Option FS :=
  if isDir fs dest then
    match a.members with
    | none => none
    | some ms =>
      some (ms.foldl (fun acc m => if m.1 = [] then acc else setNode acc (dest ++ m.1) m.2) fs)
  else none

/-- The function `readConfig`: open the file and decode a manifest. -/
def readConfig (fs : FS) (configFile : Path) : Option PackageConfig :=
  match readFile fs configFile with
  | some (Content.manifest c) => some c
  | _ => none

/-- The function `copyFile` on resolved paths: open the source, create (and so
truncate) the destination, copy the bytes. The flag tells whether it
returned `nil`; reading a directory fails after the destination was created. -/
def copyFile (env : Env) (fs : FS) (src : Path) (dest : Option Path) : FS × Bool :=
  if canOpen fs src then
    match dest with
    | none => (fs, false)
    | some d =>
      match writeFile env fs d (Content.blob []) with
      | none => (fs, false)
      | some fs1 =>
        match readFile fs1 src with
        | none => (fs1, false)
        | some c =>
          match writeFile env fs1 d c with
          | none => (fs1, false)
          | some fs2 => (fs2, true)
  else (fs, false)

/-- Comparison of two names as `sort.Strings` does it, character by character. -/
def charsLE : List Char → List Char → Bool
  | [], _ => true
  | _ :: _, [] => false
  | a :: as, b :: bs =>
    if a.toNat < b.toNat then true
    else if a.toNat = b.toNat then charsLE as bs
    else false

/-- Lexical comparison of two paths, component by component; a directory
comes before what it holds. -/
def pathLE : Path → Path → Bool
  | [], _ => true
  | _ :: _, [] => false
  | a :: as, b :: bs => if a = b then pathLE as bs else charsLE a.toList b.toList

/-- The order in which `filepath.Walk` meets two entries. -/
def walkLE (a b : Path × Node) : Prop := pathLE a.1 b.1 = true

instance : DecidableRel walkLE := fun a b => inferInstanceAs (Decidable (pathLE a.1 b.1 = true))

/-- The entries that `filepath.Walk(src, ...)` visits, in its order. -/
def walkEntries (fs : FS) (src : Path) : List (Path × Node) :=
  match node fs src with
  | none => []
  | some n =>
    (src, n) :: List.insertionSort walkLE
      (fs.filter fun e => src.isPrefixOf e.1 && decide (e.1 ≠ src))

/-- The walk function of `copyDir`, applied to the entries in turn. -/
def copyDirLoop (env : Env) (src dest : Path) : FS → List (Path × Node) → FS × Bool
  | fs, [] => (fs, true)
  | fs, (p, n) :: rest =>
    let destPath := dest ++ p.drop src.length
    match n with
    | Node.dir m =>
      match mkdirAll env fs destPath m with
      | (fs1, true) => copyDirLoop env src dest fs1 rest
      | (fs1, false) => (fs1, false)
    | _ =>
      match copyFile env fs p (some destPath) with
      | (fs1, true) => copyDirLoop env src dest fs1 rest
      | (fs1, false) => (fs1, false)

/-- The function `copyDir`: the walk fails at once when `src` cannot be
stat-ed. The entries are those present when the walk starts. -/
def copyDir (env : Env) (fs : FS) (src dest : Path) : FS × Bool :=
  match walkEntries fs src with
  | [] => (fs, false)
  | es => copyDirLoop env src dest fs es

/-- The call `filepath.Dir(dest)` resolved to a directory path: the text up to
the last `/` is cleaned, from the root for an absolute string and from the
working directory otherwise. -/
def dirOf (env : Env) (dest : String) : Path :=
  match segments dest with
  | "" :: s :: rest => (cleanFrom [] ((s :: rest).dropLast)).reverse
  | segs => (cleanFrom env.cwd.reverse segs.dropLast).reverse

/-- The test of `installFiles` for a binary destination, on the text of `dest`. -/
def isBinDest (dest : String) : Bool :=
  "/usr/local/bin/".toList.isPrefixOf dest.toList ||
  "/usr/bin/".toList.isPrefixOf dest.toList ||
  "/bin/".toList.isPrefixOf dest.toList

/-- One round of the loop of `installFiles`, for the pair `(src, dest)`;
`none` in the last component when `copyFile` failed. -/
def installOne (env : Env) (pkgDir : Path) (fs : FS) (src dest : String) : FS × Option Msg :=
  let srcPath := joinPath pkgDir src
  let fs1 := (mkdirAll env fs (dirOf env dest) 493).1
  match copyFile env fs1 srcPath (resolve env fs1 dest) with
  | (fs2, false) => (fs2, none)
  | (fs2, true) =>
    if isBinDest dest then
      ((match resolve env fs2 dest with
        | some d => chmod fs2 d 493
        | none => fs2), some (Msg.installedExecutable src dest))
    else (fs2, some (Msg.installed src dest))

/-- The loop of `installFiles` over the pairs still to visit. -/
def installLoop (env : Env) (pkgDir : Path) : FS → List (String × String) → FS × List Msg × Bool
  | fs, [] => (fs, [], true)
  | fs, (src, dest) :: rest =>
    match installOne env pkgDir fs src dest with
    | (fs1, none) => (fs1, [], false)
    | (fs1, some msg) =>
      let r := installLoop env pkgDir fs1 rest
      (r.1, msg :: r.2.1, r.2.2)

/-- The function `installFiles`; the flag tells whether it returned `nil`. -/
def installFiles (env : Env) (fs : FS) (config : PackageConfig) (pkgDir : Path) :
    FS × List Msg × Bool :=
  installLoop env pkgDir fs config.InstallPaths

/-- The loop of `createBinLinks` over the pairs still to visit. -/
def linkLoop (env : Env) (pkgDir : Path) : FS → List (String × String) → FS × List Msg × Bool
  | fs, [] => (fs, [], true)
  | fs, (src, linkName) :: rest =>
    let srcPath := joinPath pkgDir src
    let linkPath := joinPath BIN_DIR linkName
    let fs1 := match stat fs srcPath with
      | StatResult.found _ => chmod fs srcPath 493
      | _ => fs
    let fs2 := remove env fs1 linkPath
    match symlink fs2 srcPath linkPath with
    | none => (fs2, [], false)
    | some fs3 =>
      let r := linkLoop env pkgDir fs3 rest
      (r.1, Msg.createdLink linkName srcPath :: r.2.1, r.2.2)

/-- The function `createBinLinks`; the flag tells whether it returned `nil`. -/
def createBinLinks (env : Env) (fs : FS) (config : PackageConfig) (pkgDir : Path) :
    FS × List Msg × Bool :=
  linkLoop env pkgDir fs config.BinLinks

/-- The call `os.Remove(dest)` on a path string: the string is resolved first,
and a final `.` or `..` is refused. -/
def removeRaw (env : Env) (fs : FS) (raw : String) : FS :=
  match resolve env fs raw with
  | none => fs
  | some p =>
    if (segments raw).getLast? = some "." ∨ (segments raw).getLast? = some ".." then fs
    else remove env fs p

/-- The loop of `removeInstalledFiles` over the pairs still to visit. -/
def removeInstalledLoop (env : Env) : FS → List (String × String) → FS × List Msg
  | fs, [] => (fs, [])
  | fs, (_, dest) :: rest =>
    let r := removeInstalledLoop env (removeRaw env fs dest) rest
    (r.1, Msg.removed dest :: r.2)

/-- The function `removeInstalledFiles`. -/
def removeInstalledFiles (env : Env) (fs : FS) (config : PackageConfig) : FS × List Msg :=
  removeInstalledLoop env fs config.InstallPaths

/-- The loop of `removeBinLinks` over the pairs still to visit. -/
def removeLinksLoop (env : Env) : FS → List (String × String) → FS × List Msg
  | fs, [] => (fs, [])
  | fs, (_, linkName) :: rest =>
    let r := removeLinksLoop env (remove env fs (joinPath BIN_DIR linkName)) rest
    (r.1, Msg.removedLink linkName :: r.2)

/-- The function `removeBinLinks`. -/
def removeBinLinks (env : Env) (fs : FS) (config : PackageConfig) : FS × List Msg :=
  removeLinksLoop env fs config.BinLinks

/-- The record of `name` in a decoded registry. -/
def regFind : Registry → String → Option InstalledPackage
  | [], _ => none
  | (k, v) :: rest, name => if k = name then some v else regFind rest name

/-- The statement `delete(packages, name)`. -/
def regDelete (r : Registry) (name : String) : Registry :=
  r.filter fun e => decide (e.1 ≠ name)

/-- The statement `packages[name] = rec`. -/
def regPut (r : Registry) (name : String) (rec : InstalledPackage) : Registry :=
  regDelete r name ++ [(name, rec)]

/-- The function `saveInstallInfo`; the flag tells whether it returned `nil`.
A registry file that cannot be opened or decoded leaves `packages` nil, and
the function goes on with an empty map. -/
def saveInstallInfo (env : Env) (fs : FS) (config : PackageConfig) : FS × Bool :=
  let packages : Registry :=
    match readFile fs dbPath with
    | some (Content.registry r) => r
    | _ => []
  let packages1 := regPut packages config.Name
    { Name := config.Name, Version := config.Version, InstallDate := env.date, Config := config }
  let fs1 := (mkdirAll env fs UIR_CONFIG 493).1
  match writeFile env fs1 dbPath (Content.registry packages1) with
  | none => (fs1, false)
  | some fs2 => (fs2, true)

/-- The function `removeFromDatabase`; the flag tells whether it returned `nil`. -/
def removeFromDatabase (env : Env) (fs : FS) (pkgName : String) : FS × Bool :=
  if canOpen fs dbPath then
    match readFile fs dbPath with
    | some (Content.registry r) =>
      match writeFile env fs dbPath (Content.registry (regDelete r pkgName)) with
      | none => (fs, false)
      | some fs1 => (fs1, true)
    | _ => (fs, false)
  else (fs, false)

/-- The function `isPackageInstalled`. -/
def isPackageInstalled (fs : FS) (pkgName : String) : Bool :=
  if statNotExist fs dbPath then false
  else if canOpen fs dbPath then
    match readFile fs dbPath with
    | some (Content.registry r) => (regFind r pkgName).isSome
    | _ => false
  else false

/-! ## The commands -/

/-- The test `strings.HasSuffix(pkgFile, ".uir")`. -/
def hasUirSuffix (pkgFile : String) : Bool := ".uir".toList.isSuffixOf pkgFile.toList

/-- The part of `installPackage` after the extraction directory was made,
before the deferred `os.RemoveAll(extractDir)` runs. -/
def installBody (env : Env) (fs : FS) (a : Archive) : FS × List Msg :=
  match extractTarGz a fs extractDir with
  | none => (fs, [Msg.extractionError])
  | some fs1 =>
    match readConfig fs1 (joinPath extractDir "set.conf") with
    | none => (fs1, [Msg.configError])
    | some config =>
      if isPackageInstalled fs1 config.Name then (fs1, [Msg.alreadyInstalled config.Name])
      else
        let pkgDir := joinPath UIR_DIR config.Name
        let fs2 := removeAll env fs1 pkgDir
        let fs3 := (mkdirAll env fs2 pkgDir 493).1
        match copyDir env fs3 extractDir pkgDir with
        | (fs4, false) => (fs4, [Msg.copyError])
        | (fs4, true) =>
          match installFiles env fs4 config pkgDir with
          | (fs5, out5, false) => (fs5, out5 ++ [Msg.installationError])
          | (fs5, out5, true) =>
            match createBinLinks env fs5 config pkgDir with
            | (fs6, out6, false) => (fs6, out5 ++ out6 ++ [Msg.symlinkError])
            | (fs6, out6, true) =>
              match saveInstallInfo env fs6 config with
              | (fs7, false) => (fs7, out5 ++ out6 ++ [Msg.databaseError])
              | (fs7, true) =>
                (fs7, out5 ++ out6 ++ [Msg.installSuccess config.Name config.Version])

/-- The function `installPackage`. -/
def installPackage (env : Env) (fs : FS) (pkgFile : String) (a : Archive) : FS × List Msg :=
  if env.euid ≠ 0 then (fs, [Msg.needRoot])
  else if !hasUirSuffix pkgFile then (fs, [Msg.badExtension])
  else if !a.present then (fs, [Msg.archiveMissing pkgFile])
  else
    let fs1 := removeAll env fs extractDir
    let fs2 := (mkdirAll env fs1 extractDir 493).1
    let r := installBody env fs2 a
    (removeAll env r.1 extractDir, Msg.installing pkgFile :: r.2)

/-- The loop of `removeUirSelf` over the registry keys, in the order given. -/
def removeDependents (env : Env) : FS → List String → FS × List Msg
  | fs, [] => (fs, [])
  | fs, pkgName :: rest =>
    if pkgName ≠ "uir" then
      let r := removeDependents env (removeAll env fs (joinPath UIR_DIR pkgName)) rest
      (r.1, Msg.removingDependent pkgName :: r.2)
    else removeDependents env fs rest

/-- The function `removeUirSelf`; `order` is the order in which the `range`
loop visits the decoded registry. -/
def removeUirSelf (env : Env) (order : Registry → List String) (fs : FS) : FS × List Msg :=
  if env.euid ≠ 0 then (fs, [Msg.needRoot])
  else
    let r :=
      if canOpen fs dbPath then
        match readFile fs dbPath with
        | some (Content.registry packages) => removeDependents env fs (order packages)
        | _ => (fs, [])
      else (fs, [])
    let fs1 := removeAll env r.1 (joinPath UIR_DIR "uir")
    let fs2 := remove env fs1 ["usr", "local", "bin", "uir"]
    let fs3 := remove env fs2 ["usr", "local", "bin", "uir-build"]
    let fs4 := removeAll env fs3 UIR_CONFIG
    let fs5 := removeAll env fs4 UIR_DIR
    let fs6 := removeAll env fs5 UIR_TEMP
    (fs6, [Msg.removingSelf] ++ r.2 ++ [Msg.selfRemoved])

/-- The function `removePackage`. -/
def removePackage (env : Env) (order : Registry → List String) (fs : FS) (pkgName : String) :
    FS × List Msg :=
  if env.euid ≠ 0 then (fs, [Msg.needRoot])
  else if pkgName = "uir" then removeUirSelf env order fs
  else
    let pkgDir := joinPath UIR_DIR pkgName
    if statNotExist fs pkgDir then (fs, [Msg.notInstalled pkgName])
    else
      let r :=
        match readConfig fs (joinPath pkgDir "set.conf") with
        | some config =>
          let r1 := removeInstalledFiles env fs config
          let r2 := removeBinLinks env r1.1 config
          (r2.1, r1.2 ++ r2.2)
        | none => (fs, [])
      let fs1 := removeAll env r.1 pkgDir
      let fs2 := (removeFromDatabase env fs1 pkgName).1
      (fs2, [Msg.removing pkgName] ++ r.2 ++ [Msg.removeSuccess pkgName])

/-- The function `packageInfo`; only what it prints is of interest. -/
def packageInfo (fs : FS) (pkgName : String) : List Msg :=
  let pkgDir := joinPath UIR_DIR pkgName
  if statNotExist fs pkgDir then [Msg.notInstalled pkgName]
  else if canOpen fs dbPath then
    match readFile fs dbPath with
    | some (Content.registry packages) =>
      match regFind packages pkgName with
      | none => [Msg.notInDatabase pkgName]
      | some pkg => [Msg.info pkg]
    | _ => [Msg.parseError]
  else [Msg.databaseError]

/-- The registry as the commands see it: the decoded mapping of the registry
file, `none` when the file is absent or does not decode. -/
def registryOf (fs : FS) : Option Registry :=
  match readFile fs dbPath with
  | some (Content.registry r) => some r
  | _ => none

/-- Every entry of the table has a directory as parent, and no path occurs
twice: the table describes a real file tree. -/
def wellFormed (fs : FS) : Bool :=
  fs.all (fun e => e.1 ≠ [] && isDir fs e.1.dropLast) && (fs.map Prod.fst).Nodup

/-- Every regular file of `fs2` was a regular file of `fs1`. -/
def FilesFrom (fs1 fs2 : FS) : Prop :=
  ∀ q c m, lookup fs2 q = some (Node.file c m) → ∃ c1 m1, lookup fs1 q = some (Node.file c1 m1)

/-- When the registry file is there, its directory `/etc/uir` is a directory. -/
def RegistryHoused (fs : FS) : Prop :=
  (lookup fs dbPath).isSome = true → isDir fs UIR_CONFIG = true

/-- An environment of a process run by root with umask `022`. -/
def rootEnv : Env :=
  { euid := 0, umask := 18, cwd := [], date := "2024-01-01", busy := fun _ => false }

/-- The iteration order that visits the registry as it is listed. -/
def listedOrder (r : Registry) : List String := r.map Prod.fst

/-- A file tree with a storage root holding one package and a file elsewhere. -/
def fsOutside : FS :=
  [(["etc"], Node.dir 493),
   (["etc", "passwd"], Node.file (Content.blob [114]) 420),
   (["uir_packages"], Node.dir 493),
   (["uir_packages", "foo"], Node.dir 493)]

/-- An environment of a process run by root in which `/proc` is a mount point:
neither it nor what it holds can be unlinked. -/
def procEnv : Env :=
  { euid := 0, umask := 18, cwd := [], date := "2024-01-01",
    busy := fun p => ["proc"].isPrefixOf p }

/-- A file tree with the mounted `/proc` and an empty storage root. -/
def fsProc : FS :=
  [(["proc"], Node.dir 365),
   (["proc", "version"], Node.file (Content.blob [76]) 292),
   (["uir_packages"], Node.dir 493)]

/-- A package name of 256 bytes. -/
def longName : String := String.mk (List.replicate 256 'a')

/-- A manifest whose one destination lies below the registry file; its source
is not in the archive. -/
def belowConfig : PackageConfig :=
  { Name := "low", Version := "0.1", Description := "", Arch := "",
    InstallPaths := [("gone", "/etc/uir/installed.json/y")], BinLinks := [],
    Dependencies := [] }

/-- The archive of `low`. -/
def belowArchive : Archive :=
  { present := true,
    members := some [(["set.conf"], Node.file (Content.manifest belowConfig) 420)] }

/-- The manifest of the package `foo` of the scenarios of the specification. -/
def fooConfig : PackageConfig :=
  { Name := "foo", Version := "1.0.0", Description := "", Arch := "",
    InstallPaths := [("bin/foo", "/usr/local/bin/foo")], BinLinks := [], Dependencies := [] }

/-- The registry record of `foo`. -/
def fooRecord : InstalledPackage :=
  { Name := "foo", Version := "1.0.0", InstallDate := "2024-01-01", Config := fooConfig }

/-- A file tree whose registry holds `foo` while `/uir_packages/foo` is missing. -/
def fsRegistryOnly : FS :=
  [(["etc"], Node.dir 493),
   (["etc", "uir"], Node.dir 493),
   (["etc", "uir", "installed.json"], Node.file (Content.registry [("foo", fooRecord)]) 420)]

/-- A file tree with `foo` installed: storage directory, destination file and
registry record. -/
def fsFooInstalled : FS :=
  [(["usr"], Node.dir 493),
   (["usr", "local"], Node.dir 493),
   (["usr", "local", "bin"], Node.dir 493),
   (["usr", "local", "bin", "foo"], Node.file (Content.blob [1]) 493),
   (["uir_packages"], Node.dir 493),
   (["uir_packages", "foo"], Node.dir 493),
   (["uir_packages", "foo", "set.conf"], Node.file (Content.manifest fooConfig) 420),
   (["uir_packages", "foo", "bin"], Node.dir 493),
   (["uir_packages", "foo", "bin", "foo"], Node.file (Content.blob [1]) 420),
   (["etc"], Node.dir 493),
   (["etc", "uir"], Node.dir 493),
   (["etc", "uir", "installed.json"], Node.file (Content.registry [("foo", fooRecord)]) 420)]

/-- The archive of `foo`: the manifest and the one file it installs. -/
def fooArchive : Archive :=
  { present := true,
    members := some
      [(["set.conf"], Node.file (Content.manifest fooConfig) 420),
       (["bin"], Node.dir 493),
       (["bin", "foo"], Node.file (Content.blob [1]) 420)] }

/-- A file tree whose registry file holds bytes that do not decode. -/
def fsCorruptRegistry : FS :=
  [(["usr"], Node.dir 493),
   (["usr", "local"], Node.dir 493),
   (["usr", "local", "bin"], Node.dir 493),
   (["etc"], Node.dir 493),
   (["etc", "uir"], Node.dir 493),
   (["etc", "uir", "installed.json"], Node.file (Content.blob [123, 34]) 420)]

/-- A manifest whose destination starts with `/usr/local/bin/` and leads to
`/tmp/x`. -/
def dotdotConfig : PackageConfig :=
  { Name := "bar", Version := "1.0", Description := "", Arch := "",
    InstallPaths := [("x", "/usr/local/bin/../../../tmp/x")], BinLinks := [],
    Dependencies := [] }

/-- A file tree with `/usr/local/bin`, `/tmp` and the storage directory of `bar`. -/
def fsBarStored : FS :=
  [(["usr"], Node.dir 493),
   (["usr", "local"], Node.dir 493),
   (["usr", "local", "bin"], Node.dir 493),
   (["tmp"], Node.dir 493),
   (["uir_packages"], Node.dir 493),
   (["uir_packages", "bar"], Node.dir 493),
   (["uir_packages", "bar", "x"], Node.file (Content.blob [5]) 420)]

theorem lookup_filter (P : Path → Bool) (fs : FS) (q : Path) :
    lookup (fs.filter fun e => P e.1) q = if P q then lookup fs q else none := by
  induction fs with
  | nil => simp [lookup]
  | cons e rest ih =>
    obtain ⟨p, n⟩ := e
    by_cases hp : P p = true
    · simp only [List.filter_cons, hp, if_true, lookup]
      by_cases hq : p = q
      · subst hq; simp [hp]
      · simp [hq, ih]
    · simp only [List.filter_cons, hp, lookup]
      by_cases hq : p = q
      · subst hq; simp [hp, ih]
      · simp [hq, ih]

theorem lookup_setNode (fs : FS) (p q : Path) (n : Node) :
    lookup (setNode fs p n) q = if q = p then some n else lookup fs q := by
  induction fs with
  | nil =>
    by_cases hq : q = p
    · simp [setNode, lookup, hq]
    · have : ¬ p = q := fun e => hq e.symm
      simp [setNode, lookup, hq, this]
  | cons e rest ih =>
    obtain ⟨p1, n1⟩ := e
    by_cases h1 : p1 = p
    · subst h1
      by_cases hq : q = p1
      · simp [setNode, lookup, hq]
      · have : ¬ p1 = q := fun e => hq e.symm
        simp [setNode, lookup, hq, this]
    · by_cases hq : q = p
      · subst hq
        simp [setNode, lookup, h1, ih]
      · by_cases h2 : p1 = q
        · simp [setNode, lookup, h1, h2, hq]
        · simp [setNode, lookup, h1, h2, hq, ih]

theorem dbPath_eq : dbPath = ["etc", "uir", "installed.json"] := by decide

theorem extractDir_eq : extractDir = ["tmp", "uir_temp", "install"] := by decide

theorem lookup_mem (fs : FS) (p : Path) (n : Node) (h : lookup fs p = some n) : (p, n) ∈ fs := by
  induction fs with
  | nil => simp [lookup] at h
  | cons e rest ih =>
    obtain ⟨q, m⟩ := e
    by_cases hq : q = p
    · subst hq
      simp [lookup] at h
      simp [h]
    · simp [lookup, hq] at h
      exact List.mem_cons_of_mem _ (ih h)

theorem setNode_setNode (fs : FS) (p : Path) (v w : Node) :
    setNode (setNode fs p v) p w = setNode fs p w := by
  induction fs with
  | nil => simp [setNode]
  | cons e rest ih =>
    obtain ⟨q, m⟩ := e
    by_cases hq : q = p
    · simp [setNode, hq]
    · simp [setNode, hq, ih]

theorem node_of_ne_nil (fs : FS) (p : Path) (h : p ≠ []) : node fs p = lookup fs p := by
  simp [node, h]

theorem isDir_setNode_of_ne (fs : FS) (p q : Path) (n : Node) (h : q ≠ p) :
    isDir (setNode fs p n) q = isDir fs q := by
  unfold isDir node
  by_cases hq : q = []
  · simp [hq]
  · simp [hq, lookup_setNode, h]

theorem readFile_db (fs : FS) :
    readFile fs dbPath =
      match lookup fs dbPath with
      | some (Node.file c _) => some c
      | _ => none := by
  unfold readFile
  rw [node_of_ne_nil fs dbPath (by decide)]

theorem registryOf_some (fs : FS) (r : Registry) (h : registryOf fs = some r) :
    ∃ m, lookup fs dbPath = some (Node.file (Content.registry r) m) := by
  unfold registryOf at h
  rw [readFile_db] at h
  cases hl : lookup fs dbPath with
  | none => simp [hl] at h
  | some n =>
    cases n with
    | file c m =>
      cases c with
      | registry r2 =>
        simp [hl] at h
        exact ⟨m, by rw [h]⟩
      | blob b => simp [hl] at h
      | manifest c => simp [hl] at h
    | dir m => simp [hl] at h
    | symlink t => simp [hl] at h

theorem removeFromDatabase_of_registry (env : Env) (fs : FS) (name : String) (r : Registry)
    (m : Nat) (hl : lookup fs dbPath = some (Node.file (Content.registry r) m))
    (hd : isDir fs UIR_CONFIG = true) :
    removeFromDatabase env fs name =
      (setNode fs dbPath (Node.file (Content.registry (regDelete r name)) m), true) := by
  have hd2 : isDir fs (dbPath.dropLast) = true := hd
  have hne : dbPath ≠ [] := by decide
  have htl : badName dbPath = false := by decide
  simp [removeFromDatabase, canOpen, readFile, node, hne, hl, writeFile, hd2, htl]

theorem removeFromDatabase_of_not_registry (env : Env) (fs : FS) (name : String)
    (h : registryOf fs = none) : removeFromDatabase env fs name = (fs, false) := by
  unfold removeFromDatabase
  unfold registryOf at h
  split
  · split
    · rename_i r hr
      simp [hr] at h
    · rfl
  · rfl

theorem removeFromDatabase_fs (env : Env) (fs : FS) (name : String) :
    (removeFromDatabase env fs name).1 = fs ∨
    ∃ r m, lookup fs dbPath = some (Node.file (Content.registry r) m) ∧
      isDir fs UIR_CONFIG = true ∧
      (removeFromDatabase env fs name).1 =
        setNode fs dbPath (Node.file (Content.registry (regDelete r name)) m) := by
  cases hreg : registryOf fs with
  | none => left; rw [removeFromDatabase_of_not_registry env fs name hreg]
  | some r =>
    obtain ⟨m, hl⟩ := registryOf_some fs r hreg
    by_cases hd : isDir fs UIR_CONFIG = true
    · right
      exact ⟨r, m, hl, hd, by rw [removeFromDatabase_of_registry env fs name r m hl hd]⟩
    · left
      have hd2 : isDir fs (dbPath.dropLast) = false := by
        have : dbPath.dropLast = UIR_CONFIG := by decide
        rw [this]; simpa using hd
      have hne : dbPath ≠ [] := by decide
      have htl : badName dbPath = false := by decide
      simp [removeFromDatabase, canOpen, readFile, node, hne, hl, writeFile, hd2, htl]

/-- C4, as stated, fails: with `foo` a key of the registry and no directory
`/uir_packages/foo`, `packageInfo` answers "not installed" and does not print
the stored record. -/
theorem C4_counterexample :
    wellFormed fsRegistryOnly = true ∧
    registryOf fsRegistryOnly = some [("foo", fooRecord)] ∧
    regFind [("foo", fooRecord)] "foo" = some fooRecord ∧
    packageInfo fsRegistryOnly "foo" = [Msg.notInstalled "foo"] := by
  decide

/-- C4, amended: with a registry that decodes, `packageInfo` first looks at the
storage directory: when `os.Stat` says that `/uir_packages/name` does not
exist it answers "not installed" whatever the registry holds; otherwise it
prints the stored record when `name` is a registry key and "not found in
database" when it is not. -/
theorem C4_packageInfo (fs : FS) (name : String) (r : Registry)
    (hreg : registryOf fs = some r) :
    packageInfo fs name =
      if statNotExist fs (joinPath UIR_DIR name) then [Msg.notInstalled name]
      else match regFind r name with
        | some pkg => [Msg.info pkg]
        | none => [Msg.notInDatabase name] := by
  obtain ⟨m, hl⟩ := registryOf_some fs r hreg
  have hne : dbPath ≠ [] := by decide
  unfold packageInfo
  by_cases hs : statNotExist fs (joinPath UIR_DIR name) = true
  · simp [hs]
  · simp only [hs, canOpen, readFile, node, hne, hl, if_false]
    cases regFind r name <;> simp

/-- C4 at a tree with `foo` installed: the record of the registry is printed. -/
theorem C4_packageInfo_witness :
    registryOf fsFooInstalled = some [("foo", fooRecord)] ∧
    packageInfo fsFooInstalled "foo" = [Msg.info fooRecord] :=
  ⟨by decide, (C4_packageInfo fsFooInstalled "foo" [("foo", fooRecord)] (by decide)).trans
    (by decide)⟩

/-! ## C3: install over a registry file that does not decode -/

/-- C3, the code at the failing input: the registry file exists and does not
decode, yet `installPackage` places the file, reports success and overwrites
the registry file with a mapping that holds only the new record. -/
theorem C3_install_overwrites_corrupt_registry :
    wellFormed fsCorruptRegistry = true ∧
    lookup fsCorruptRegistry dbPath = some (Node.file (Content.blob [123, 34]) 420) ∧
    registryOf fsCorruptRegistry = none ∧
    (installPackage rootEnv fsCorruptRegistry "foo.uir" fooArchive).2 =
      [Msg.installing "foo.uir", Msg.installedExecutable "bin/foo" "/usr/local/bin/foo",
       Msg.installSuccess "foo" "1.0.0"] ∧
    lookup (installPackage rootEnv fsCorruptRegistry "foo.uir" fooArchive).1
      ["usr", "local", "bin", "foo"] = some (Node.file (Content.blob [1]) 493) ∧
    registryOf (installPackage rootEnv fsCorruptRegistry "foo.uir" fooArchive).1 =
      some [("foo", fooRecord)] := by
  decide

/-! ## Lemmas on removal -/

theorem remove_eq (env : Env) (fs : FS) (p : Path) :
    remove env fs p = fs ∨
      remove env fs p = fs.filter (fun e => (fun q => decide (q ≠ p)) e.1) := by
  unfold remove
  split
  · left; rfl
  · right; rfl

theorem lookup_removeAll (env : Env) (fs : FS) (p q : Path) :
    lookup (removeAll env fs p) q =
      if p.isPrefixOf q && !pinned env fs q then none else lookup fs q := by
  have := lookup_filter (fun q => !(p.isPrefixOf q) || pinned env fs q) fs q
  unfold removeAll
  rw [this]
  by_cases h : p.isPrefixOf q = true <;> by_cases h2 : pinned env fs q = true <;> simp [h, h2]

theorem FilesFrom.frefl (fs : FS) : FilesFrom fs fs :=
  fun _ c m h => ⟨c, m, h⟩

theorem FilesFrom.ftrans {a b c : FS} (h1 : FilesFrom a b) (h2 : FilesFrom b c) : FilesFrom a c := by
  intro q c1 m1 h
  obtain ⟨c2, m2, h3⟩ := h2 q c1 m1 h
  exact h1 q c2 m2 h3

theorem FilesFrom_filter (P : Path → Bool) (fs : FS) :
    FilesFrom fs (fs.filter fun e => P e.1) := by
  intro q c m h
  rw [lookup_filter] at h
  by_cases hp : P q = true
  · simp [hp] at h; exact ⟨c, m, h⟩
  · simp [hp] at h

theorem FilesFrom_remove (env : Env) (fs : FS) (p : Path) : FilesFrom fs (remove env fs p) := by
  rcases remove_eq env fs p with h | h
  · rw [h]; exact FilesFrom.frefl fs
  · rw [h]; exact FilesFrom_filter (fun q => decide (q ≠ p)) fs

theorem FilesFrom_removeAll (env : Env) (fs : FS) (p : Path) :
    FilesFrom fs (removeAll env fs p) :=
  FilesFrom_filter (fun q => !(p.isPrefixOf q) || pinned env fs q) fs

theorem FilesFrom_removeRaw (env : Env) (fs : FS) (raw : String) :
    FilesFrom fs (removeRaw env fs raw) := by
  unfold removeRaw
  split
  · exact FilesFrom.frefl fs
  · split
    · exact FilesFrom.frefl fs
    · exact FilesFrom_remove env fs _

theorem FilesFrom_removeFromDatabase (env : Env) (fs : FS) (name : String) :
    FilesFrom fs (removeFromDatabase env fs name).1 := by
  rcases removeFromDatabase_fs env fs name with h | ⟨r, m, hl, _, h⟩
  · rw [h]; exact FilesFrom.frefl fs
  · rw [h]
    intro q c1 m1 hq
    rw [lookup_setNode] at hq
    by_cases hqp : q = dbPath
    · subst hqp; exact ⟨_, _, hl⟩
    · simp [hqp] at hq; exact ⟨c1, m1, hq⟩

theorem blockedByFile_mono (fs1 fs2 : FS) (h : FilesFrom fs1 fs2) (p : Path)
    (hb : blockedByFile fs1 p = false) : blockedByFile fs2 p = false := by
  by_contra hne
  have hb2 : blockedByFile fs2 p = true := by simpa using hne
  unfold blockedByFile at hb2 hb
  rw [List.any_eq_true] at hb2
  obtain ⟨q, hq, hfile⟩ := hb2
  have : ∃ c m, lookup fs2 q = some (Node.file c m) := by
    cases hl : lookup fs2 q with
    | none => simp [hl] at hfile
    | some n =>
      cases n with
      | file c m => exact ⟨c, m, rfl⟩
      | dir m => simp [hl] at hfile
      | symlink t => simp [hl] at hfile
  obtain ⟨c, m, hl⟩ := this
  obtain ⟨c1, m1, hl1⟩ := h q c m hl
  have : (ancestors p).any (fun q => match lookup fs1 q with
      | some (Node.file _ _) => true
      | _ => false) = true := by
    rw [List.any_eq_true]
    exact ⟨q, hq, by simp [hl1]⟩
  rw [this] at hb
  exact Bool.noConfusion hb

theorem FilesFrom_removeInstalledLoop (env : Env) (l : List (String × String)) (fs : FS) :
    FilesFrom fs (removeInstalledLoop env fs l).1 := by
  induction l generalizing fs with
  | nil => exact FilesFrom.frefl fs
  | cons e rest ih =>
    obtain ⟨src, dest⟩ := e
    simp only [removeInstalledLoop]
    exact (FilesFrom_removeRaw env fs dest).ftrans (ih _)

theorem FilesFrom_removeLinksLoop (env : Env) (l : List (String × String)) (fs : FS) :
    FilesFrom fs (removeLinksLoop env fs l).1 := by
  induction l generalizing fs with
  | nil => exact FilesFrom.frefl fs
  | cons e rest ih =>
    obtain ⟨src, linkName⟩ := e
    simp only [removeLinksLoop]
    exact (FilesFrom_remove env fs _).ftrans (ih _)

theorem hasChild_of_lookup (fs : FS) (p q : Path) (n : Node) (h : lookup fs q = some n)
    (hpre : p.isPrefixOf q = true) (hne : q ≠ p) : hasChild fs p = true := by
  unfold hasChild
  rw [List.any_eq_true]
  exact ⟨(q, n), lookup_mem fs q n h, by simp [hpre, hne]⟩

theorem isDir_filter_of_keep (P : Path → Bool) (fs : FS) (q : Path) (h : P q = true) :
    isDir (fs.filter fun e => P e.1) q = isDir fs q := by
  unfold isDir node
  by_cases hq : q = []
  · simp [hq]
  · simp [hq, lookup_filter, h]

theorem pinned_of_lookup (env : Env) (fs : FS) (q e : Path) (n : Node)
    (hl : lookup fs e = some n) (hpre : q.isPrefixOf e = true) (hb : env.busy e = true) :
    pinned env fs q = true := by
  unfold pinned
  rw [List.any_eq_true]
  exact ⟨(e, n), lookup_mem fs e n hl, by simp [hpre, hb]⟩

theorem RegistryHoused_remove (env : Env) (fs : FS) (p : Path) (h : RegistryHoused fs) :
    RegistryHoused (remove env fs p) := by
  unfold remove
  split
  · exact h
  · rename_i hcond
    intro hsome
    rw [lookup_filter (fun q => decide (q ≠ p))] at hsome
    by_cases hdb : dbPath = p
    · simp [hdb] at hsome
    · simp [hdb] at hsome
      have hdir := h hsome
      by_cases hc : UIR_CONFIG = p
      · exfalso
        apply hcond
        rw [← hc, hdir]
        cases hl : lookup fs dbPath with
        | none => simp [hl] at hsome
        | some n =>
          rw [hasChild_of_lookup fs UIR_CONFIG dbPath n hl (by decide) (by decide)]
          rfl
      · rw [isDir_filter_of_keep (fun q => decide (q ≠ p)) fs UIR_CONFIG (by simp [hc])]
        exact hdir

theorem RegistryHoused_removeRaw (env : Env) (fs : FS) (raw : String) (h : RegistryHoused fs) :
    RegistryHoused (removeRaw env fs raw) := by
  unfold removeRaw
  split
  · exact h
  · split
    · exact h
    · exact RegistryHoused_remove env fs _ h

theorem RegistryHoused_removeInstalledLoop (env : Env) (l : List (String × String)) (fs : FS)
    (h : RegistryHoused fs) : RegistryHoused (removeInstalledLoop env fs l).1 := by
  induction l generalizing fs with
  | nil => exact h
  | cons e rest ih =>
    obtain ⟨src, dest⟩ := e
    simp only [removeInstalledLoop]
    exact ih _ (RegistryHoused_removeRaw env fs dest h)

theorem RegistryHoused_removeLinksLoop (env : Env) (l : List (String × String)) (fs : FS)
    (h : RegistryHoused fs) : RegistryHoused (removeLinksLoop env fs l).1 := by
  induction l generalizing fs with
  | nil => exact h
  | cons e rest ih =>
    obtain ⟨src, linkName⟩ := e
    simp only [removeLinksLoop]
    exact ih _ (RegistryHoused_remove env fs _ h)

theorem removePackage_notExist (env : Env) (order : Registry → List String) (fs : FS)
    (n : String) (hroot : env.euid = 0) (hn : n ≠ "uir")
    (hs : statNotExist fs (joinPath UIR_DIR n) = true) :
    removePackage env order fs n = (fs, [Msg.notInstalled n]) := by
  simp [removePackage, hroot, hn, hs]

theorem removePackage_exists (env : Env) (order : Registry → List String) (fs : FS)
    (n : String) (hroot : env.euid = 0) (hn : n ≠ "uir")
    (hs : statNotExist fs (joinPath UIR_DIR n) = false) :
    ∃ fs0, FilesFrom fs fs0 ∧ (RegistryHoused fs → RegistryHoused fs0) ∧
      (removePackage env order fs n).1 =
        (removeFromDatabase env (removeAll env fs0 (joinPath UIR_DIR n)) n).1 := by
  cases hc : readConfig fs (joinPath (joinPath UIR_DIR n) "set.conf") with
  | none =>
    refine ⟨fs, FilesFrom.frefl fs, id, ?_⟩
    simp [removePackage, hroot, hn, hs, hc]
  | some config =>
    refine ⟨(removeBinLinks env (removeInstalledFiles env fs config).1 config).1, ?_, ?_, ?_⟩
    · exact (FilesFrom_removeInstalledLoop env _ fs).ftrans (FilesFrom_removeLinksLoop env _ _)
    · intro h
      exact RegistryHoused_removeLinksLoop env _ _ (RegistryHoused_removeInstalledLoop env _ fs h)
    · simp [removePackage, hroot, hn, hs, hc]

theorem statNotExist_of_absent (fs : FS) (p : Path) (hp : p ≠ []) (hlong : badName p = false)
    (hb : blockedByFile fs p = false) (hl : lookup fs p = none) : statNotExist fs p = true := by
  simp [statNotExist, stat, hlong, hb, node, hp, hl]

theorem pinned_false (env : Env) (fs : FS) (p : Path)
    (hbusy : ∀ q, p <+: q → env.busy q = false) : pinned env fs p = false := by
  cases hpin : pinned env fs p with
  | false => rfl
  | true =>
    unfold pinned at hpin
    rw [List.any_eq_true] at hpin
    obtain ⟨e, _, hc⟩ := hpin
    rw [Bool.and_eq_true] at hc
    rw [hbusy e.1 (List.isPrefixOf_iff_prefix.1 hc.1)] at hc
    exact Bool.noConfusion hc.2

theorem removePackage_storage_absent (env : Env) (order : Registry → List String) (fs : FS)
    (n : String) (hroot : env.euid = 0) (hn : n ≠ "uir")
    (hs : statNotExist fs (joinPath UIR_DIR n) = false)
    (hbusy : ∀ q, joinPath UIR_DIR n <+: q → env.busy q = false) :
    lookup (removePackage env order fs n).1 (joinPath UIR_DIR n) = none := by
  obtain ⟨fs0, _, _, heq⟩ := removePackage_exists env order fs n hroot hn hs
  rw [heq]
  have habs : lookup (removeAll env fs0 (joinPath UIR_DIR n)) (joinPath UIR_DIR n) = none := by
    rw [lookup_removeAll, pinned_false env fs0 _ hbusy]; simp
  rcases removeFromDatabase_fs env (removeAll env fs0 (joinPath UIR_DIR n)) n with h | ⟨r, m, hl, _, h⟩
  · rw [h]; exact habs
  · rw [h, lookup_setNode]
    by_cases hp : joinPath UIR_DIR n = dbPath
    · rw [hp] at habs hl; rw [habs] at hl; exact Option.noConfusion hl
    · simp [hp, habs]

theorem removePackage_filesFrom (env : Env) (order : Registry → List String) (fs : FS)
    (n : String) (hroot : env.euid = 0) (hn : n ≠ "uir") :
    FilesFrom fs (removePackage env order fs n).1 := by
  by_cases hs : statNotExist fs (joinPath UIR_DIR n) = true
  · rw [removePackage_notExist env order fs n hroot hn hs]; exact FilesFrom.frefl fs
  · have hs2 : statNotExist fs (joinPath UIR_DIR n) = false := by simpa using hs
    obtain ⟨fs0, h0, _, heq⟩ := removePackage_exists env order fs n hroot hn hs2
    rw [heq]
    exact (h0.ftrans (FilesFrom_removeAll env fs0 _)).ftrans (FilesFrom_removeFromDatabase env _ n)

/-- C5, as stated, fails: for the name `..` the storage path is `/`, which
always exists, so the second removal does not report "not installed". -/
theorem C5_counterexample :
    ".." ≠ "uir" ∧ wellFormed fsOutside = true ∧
    (removePackage rootEnv listedOrder
      (removePackage rootEnv listedOrder fsOutside "..").1 "..").2 =
      [Msg.removing "..", Msg.removeSuccess ".."] := by
  decide

/-- A mount point at the storage path: for the name `../proc` the storage path
is `/proc`, which `os.RemoveAll` cannot unlink; the error is dropped, and the
second removal prints success again. -/
theorem remove_twice_mount_point :
    joinPath UIR_DIR "../proc" = ["proc"] ∧
    (removePackage procEnv listedOrder
      (removePackage procEnv listedOrder fsProc "../proc").1 "../proc").2 =
      [Msg.removing "../proc", Msg.removeSuccess "../proc"] := by
  decide

set_option maxRecDepth 100000 in
/-- A name of 256 bytes: `os.Stat` fails with `ENAMETOOLONG`, which is not "does
not exist", so both removals print success. -/
theorem remove_twice_long_name :
    badName (joinPath UIR_DIR longName) = true ∧
    (removePackage rootEnv listedOrder
      (removePackage rootEnv listedOrder fsOutside longName).1 longName).2 =
      [Msg.removing longName, Msg.removeSuccess longName] := by
  decide

/-- C5, amended: take a name other than `uir` whose storage path
`filepath.Join("/uir_packages", n)` is not `/`, is a name that the kernel
accepts (no component over 255 bytes or with a NUL byte, at most 4095 bytes
in all), is no symbolic link and has none and no regular file among its
ancestors, and holds nothing that cannot be unlinked. Then two removals with
elevation behave as follows: the first run ends (the function is total), the
second run reports "not installed" and leaves the state of the first run as
it is. -/
theorem C5_remove_twice (env : Env) (order : Registry → List String) (fs : FS) (n : String)
    (hroot : env.euid = 0) (hn : n ≠ "uir")
    (_hway : plain fs (joinPath UIR_DIR n) = true)
    (hp : joinPath UIR_DIR n ≠ [])
    (hlong : badName (joinPath UIR_DIR n) = false)
    (hb : blockedByFile fs (joinPath UIR_DIR n) = false)
    (hbusy : ∀ q, joinPath UIR_DIR n <+: q → env.busy q = false) :
    removePackage env order (removePackage env order fs n).1 n =
      ((removePackage env order fs n).1, [Msg.notInstalled n]) := by
  apply removePackage_notExist env order _ n hroot hn
  by_cases hs : statNotExist fs (joinPath UIR_DIR n) = true
  · rw [removePackage_notExist env order fs n hroot hn hs]; exact hs
  · have hs2 : statNotExist fs (joinPath UIR_DIR n) = false := by simpa using hs
    exact statNotExist_of_absent _ _ hp hlong
      (blockedByFile_mono fs _ (removePackage_filesFrom env order fs n hroot hn) _ hb)
      (removePackage_storage_absent env order fs n hroot hn hs2 hbusy)

/-- C5 at a tree with `foo` installed: the first removal succeeds, the second
reports "not installed" and changes nothing. -/
theorem C5_remove_twice_witness :
    plain fsFooInstalled (joinPath UIR_DIR "foo") = true ∧
    (removePackage rootEnv listedOrder fsFooInstalled "foo").2 =
      [Msg.removing "foo", Msg.removed "/usr/local/bin/foo", Msg.removeSuccess "foo"] ∧
    removePackage rootEnv listedOrder (removePackage rootEnv listedOrder fsFooInstalled "foo").1
      "foo" = ((removePackage rootEnv listedOrder fsFooInstalled "foo").1,
        [Msg.notInstalled "foo"]) :=
  ⟨by decide, by decide,
    C5_remove_twice rootEnv listedOrder fsFooInstalled "foo" (by decide) (by decide)
      (by decide) (by decide) (by decide) (by decide) (fun _ _ => rfl)⟩

/-- The mode that `os.Create` leaves on `p`: the old mode of a file, the
default of a new one. -/
theorem writeFile_some (env : Env) (fs fs1 : FS) (p : Path) (c : Content)
    (h : writeFile env fs p c = some fs1) :
    p ≠ [] ∧
    ((lookup fs p = none ∧ fs1 = setNode fs p (Node.file c (438 &&& (511 ^^^ env.umask)))) ∨
     (∃ c0 m, lookup fs p = some (Node.file c0 m) ∧ fs1 = setNode fs p (Node.file c m))) := by
  unfold writeFile at h
  by_cases hp : p = []
  · simp [hp] at h
  · refine ⟨hp, ?_⟩
    split at h
    · exact Option.noConfusion h
    split at h
    · cases hl : lookup fs p with
      | none =>
        simp only [hl] at h
        injection h with h
        exact Or.inl ⟨rfl, h.symm⟩
      | some n =>
        cases n with
        | file c0 m =>
          simp only [hl] at h
          injection h with h
          exact Or.inr ⟨c0, m, rfl, h.symm⟩
        | dir m => simp [hl] at h
        | symlink t => simp [hl] at h
    · exact Option.noConfusion h

theorem copyFile_true (env : Env) (fs fs2 : FS) (src : Path) (dest : Option Path)
    (h : copyFile env fs src dest = (fs2, true)) :
    ∃ d c, dest = some d ∧ d ≠ [] ∧
      ((lookup fs d = none ∧
          fs2 = setNode fs d (Node.file c (438 &&& (511 ^^^ env.umask)))) ∨
       (∃ c0 m, lookup fs d = some (Node.file c0 m) ∧ fs2 = setNode fs d (Node.file c m))) := by
  unfold copyFile at h
  split at h
  · cases dest with
    | none => simp at h
    | some d =>
      simp only at h
      cases hw : writeFile env fs d (Content.blob []) with
      | none => simp [hw] at h
      | some fs1 =>
        simp only [hw] at h
        cases hr : readFile fs1 src with
        | none => simp [hr] at h
        | some c =>
          simp only [hr] at h
          cases hw2 : writeFile env fs1 d c with
          | none => simp [hw2] at h
          | some fs3 =>
            simp only [hw2] at h
            injection h with h _
            subst h
            obtain ⟨hd, hcase⟩ := writeFile_some env fs fs1 d _ hw
            obtain ⟨_, hcase2⟩ := writeFile_some env fs1 fs3 d c hw2
            refine ⟨d, c, rfl, hd, ?_⟩
            rcases hcase with ⟨hl, hf⟩ | ⟨c0, m, hl, hf⟩
            · left
              refine ⟨hl, ?_⟩
              rcases hcase2 with ⟨hl2, _⟩ | ⟨c1, m1, hl2, hf2⟩
              · rw [hf, lookup_setNode] at hl2; simp at hl2
              · rw [hf, lookup_setNode] at hl2
                simp at hl2
                rw [hf2, hf, setNode_setNode, ← hl2.2]
            · right
              refine ⟨c0, m, hl, ?_⟩
              rcases hcase2 with ⟨hl2, _⟩ | ⟨c1, m1, hl2, hf2⟩
              · rw [hf, lookup_setNode] at hl2; simp at hl2
              · rw [hf, lookup_setNode] at hl2
                simp at hl2
                rw [hf2, hf, setNode_setNode, ← hl2.2]
  · simp at h

theorem isDir_setNode_file (fs : FS) (d q : Path) (c : Content) (m : Nat)
    (h : isDir fs d = false) : isDir (setNode fs d (Node.file c m)) q = isDir fs q := by
  by_cases hq : q = d
  · subst hq
    rw [h]
    unfold isDir node
    by_cases hn : q = []
    · subst hn; simp [isDir, node] at h
    · simp [hn, lookup_setNode]
  · exact isDir_setNode_of_ne fs d q _ hq

theorem walkFrom_congr (fs1 fs2 : FS) (h : ∀ q, isDir fs2 q = isDir fs1 q) (segs : List String) :
    ∀ stack, walkFrom fs2 stack segs = walkFrom fs1 stack segs := by
  induction segs with
  | nil => intro stack; rfl
  | cons seg rest ih =>
    intro stack
    simp only [walkFrom, h, ih]

theorem resolve_congr (env : Env) (fs1 fs2 : FS) (h : ∀ q, isDir fs2 q = isDir fs1 q)
    (raw : String) : resolve env fs2 raw = resolve env fs1 raw := by
  unfold resolve
  split
  · rfl
  · split <;> simp only [walkFrom_congr fs1 fs2 h]

theorem lookup_mkdirAllAux_cases (mode : Nat) (todo : List String) (fs : FS) (done q : Path) :
    lookup (mkdirAllAux mode fs done todo).1 q = lookup fs q ∨
      (lookup fs q = none ∧ lookup (mkdirAllAux mode fs done todo).1 q = some (Node.dir mode)) := by
  induction todo generalizing fs done with
  | nil => left; rfl
  | cons c cs ih =>
    have hne : done ++ [c] ≠ [] := by simp
    unfold mkdirAllAux
    cases hn : node fs (done ++ [c]) with
    | none =>
      simp only
      rw [node_of_ne_nil fs _ hne] at hn
      split
      · left; rfl
      rcases ih (setNode fs (done ++ [c]) (Node.dir mode)) (done ++ [c]) with h | ⟨h1, h2⟩
      · rw [h, lookup_setNode]
        by_cases hq : q = done ++ [c]
        · right; subst hq; exact ⟨hn, by simp⟩
        · left; simp [hq]
      · rw [lookup_setNode] at h1
        by_cases hq : q = done ++ [c]
        · simp [hq] at h1
        · simp [hq] at h1
          right; exact ⟨h1, h2⟩
    | some n =>
      cases n with
      | dir m => simp only; exact ih fs (done ++ [c])
      | file c m => left; rfl
      | symlink t => left; rfl

/-! ## C8: the mode of an installed file -/

/-- C8, as stated, fails: the destination `/usr/local/bin/../../../tmp/x` is the
file `/tmp/x`, outside every binary directory, yet its text starts with
`/usr/local/bin/`: the new file gets mode `0755` and is reported as
executable. -/
theorem C8_counterexample :
    wellFormed fsBarStored = true ∧
    resolve rootEnv fsBarStored "/usr/local/bin/../../../tmp/x" = some ["tmp", "x"] ∧
    lookup fsBarStored ["tmp", "x"] = none ∧
    installFiles rootEnv fsBarStored dotdotConfig ["uir_packages", "bar"] =
      (setNode fsBarStored ["tmp", "x"] (Node.file (Content.blob [5]) 493),
       [Msg.installedExecutable "x" "/usr/local/bin/../../../tmp/x"], true) := by
  decide

/-- What a successful round of the loop of `installFiles` leaves behind. -/
theorem installOne_mode (env : Env) (pkgDir : Path) (fs fs1 : FS) (src dest : String)
    (msg : Msg) (h : installOne env pkgDir fs src dest = (fs1, some msg)) :
    ∃ d c, d ≠ [] ∧ resolve env fs1 dest = some d ∧
      (isBinDest dest = true →
        msg = Msg.installedExecutable src dest ∧ lookup fs1 d = some (Node.file c 493)) ∧
      (isBinDest dest = false →
        msg = Msg.installed src dest ∧
        lookup fs1 d = some (Node.file c
          (match lookup fs d with
            | some (Node.file _ m) => m
            | _ => 438 &&& (511 ^^^ env.umask)))) := by
  unfold installOne at h
  simp only at h
  generalize hfs0 : (mkdirAll env fs (dirOf env dest) 493).1 = fs0 at h
  cases hcp : copyFile env fs0 (joinPath pkgDir src) (resolve env fs0 dest) with
  | mk fs2 ok =>
    rw [hcp] at h
    cases ok with
    | false => simp at h
    | true =>
      simp only at h
      obtain ⟨d, c, hres, hd, hcase⟩ := copyFile_true env fs0 fs2 _ _ hcp
      have hmode : ∃ m0, fs2 = setNode fs0 d (Node.file c m0) ∧ isDir fs0 d = false ∧
          m0 = (match lookup fs d with
            | some (Node.file _ m) => m
            | _ => 438 &&& (511 ^^^ env.umask)) := by
        have hcases := lookup_mkdirAllAux_cases (493 &&& (511 ^^^ env.umask)) (dirOf env dest)
          fs [] d
        have hfs0' : (mkdirAllAux (493 &&& (511 ^^^ env.umask)) fs [] (dirOf env dest)).1 = fs0 :=
          hfs0
        rw [hfs0'] at hcases
        rcases hcase with ⟨hl, hf⟩ | ⟨c0, m, hl, hf⟩
        · refine ⟨_, hf, by simp [isDir, node, hd, hl], ?_⟩
          rcases hcases with h1 | ⟨_, h2⟩
          · rw [← h1, hl]
          · rw [hl] at h2; exact Option.noConfusion h2
        · refine ⟨m, hf, by simp [isDir, node, hd, hl], ?_⟩
          rcases hcases with h1 | ⟨_, h2⟩
          · rw [← h1, hl]
          · rw [hl] at h2; simp at h2
      obtain ⟨m0, hf, hnd, hm0⟩ := hmode
      have hdir2 : ∀ q, isDir fs2 q = isDir fs0 q := by
        intro q; rw [hf]; exact isDir_setNode_file fs0 d q c m0 hnd
      have hres2 : resolve env fs2 dest = some d := by
        rw [resolve_congr env fs0 fs2 hdir2, hres]
      have hl2 : lookup fs2 d = some (Node.file c m0) := by
        rw [hf, lookup_setNode]; simp
      by_cases hbin : isBinDest dest = true
      · simp only [hbin, if_true, hres2] at h
        injection h with h1 h2
        injection h2 with h2
        have hch : chmod fs2 d 493 = setNode fs2 d (Node.file c 493) := by
          simp [chmod, node, hd, hl2]
        rw [hch] at h1
        have hdir1 : ∀ q, isDir fs1 q = isDir fs2 q := by
          intro q; rw [← h1]
          exact isDir_setNode_file fs2 d q c 493 (by rw [hdir2]; exact hnd)
        refine ⟨d, c, hd, by rw [resolve_congr env fs2 fs1 hdir1, hres2], ?_, ?_⟩
        · intro _
          exact ⟨h2.symm, by rw [← h1, lookup_setNode]; simp⟩
        · intro hb; rw [hbin] at hb; exact Bool.noConfusion hb
      · have hbin2 : isBinDest dest = false := by simpa using hbin
        simp only [hbin2, Bool.false_eq_true, if_false] at h
        injection h with h1 h2
        injection h2 with h2
        subst h1
        refine ⟨d, c, hd, hres2, ?_, ?_⟩
        · intro hb; rw [hbin2] at hb; exact Bool.noConfusion hb
        · intro _
          exact ⟨h2.symm, by rw [hl2, hm0]⟩

/-- C8, amended: for every pair that the loop of `installFiles` copies
successfully, the destination resolves to a file afterwards; when the text of
the destination starts with `/usr/local/bin/`, `/usr/bin/` or `/bin/` its mode
is `0755` and the pair is reported as "Installed (executable)"; otherwise the
pair is reported as "Installed" and the mode is the one the file had before,
or `0666` less the umask when the file is new. -/
theorem C8_installOne_mode (env : Env) (pkgDir : Path) (fs fs1 : FS) (src dest : String)
    (msg : Msg) (h : installOne env pkgDir fs src dest = (fs1, some msg)) :
    ∃ d c, resolve env fs1 dest = some d ∧
      (isBinDest dest = true →
        msg = Msg.installedExecutable src dest ∧ lookup fs1 d = some (Node.file c 493)) ∧
      (isBinDest dest = false →
        msg = Msg.installed src dest ∧
        lookup fs1 d = some (Node.file c
          (match lookup fs d with
            | some (Node.file _ m) => m
            | _ => 438 &&& (511 ^^^ env.umask)))) := by
  obtain ⟨d, c, _, hrest⟩ := installOne_mode env pkgDir fs fs1 src dest msg h
  exact ⟨d, c, hrest⟩

/-- C8 at a tree with the storage directory of `foo`: the copy to
`/usr/local/bin/foo` is reported as executable and leaves mode `0755`. -/
theorem C8_installOne_mode_witness :
    ∃ d c, resolve rootEnv
        (installOne rootEnv ["uir_packages", "foo"] fsFooInstalled "bin/foo"
          "/usr/local/bin/foo").1 "/usr/local/bin/foo" = some d ∧
      (isBinDest "/usr/local/bin/foo" = true →
        Msg.installedExecutable "bin/foo" "/usr/local/bin/foo" =
          Msg.installedExecutable "bin/foo" "/usr/local/bin/foo" ∧
        lookup (installOne rootEnv ["uir_packages", "foo"] fsFooInstalled "bin/foo"
          "/usr/local/bin/foo").1 d = some (Node.file c 493)) ∧
      (isBinDest "/usr/local/bin/foo" = false →
        Msg.installedExecutable "bin/foo" "/usr/local/bin/foo" =
          Msg.installed "bin/foo" "/usr/local/bin/foo" ∧
        lookup (installOne rootEnv ["uir_packages", "foo"] fsFooInstalled "bin/foo"
          "/usr/local/bin/foo").1 d = some (Node.file c
            (match lookup fsFooInstalled d with
              | some (Node.file _ m) => m
              | _ => 438 &&& (511 ^^^ rootEnv.umask)))) :=
  C8_installOne_mode rootEnv ["uir_packages", "foo"] fsFooInstalled _ "bin/foo"
    "/usr/local/bin/foo" (Msg.installedExecutable "bin/foo" "/usr/local/bin/foo") (by decide)

/-! ## What one step does to a path -/

/-- A destination below the registry file: the one pair of the manifest has the
destination `/etc/uir/installed.json/y` and a source that the archive lacks;
`os.MkdirAll` makes the directory of the destination before the copy fails,
so the failed install turns the absent registry file into a directory. -/
theorem failed_install_makes_directory :
    lookup fsBarStored dbPath = none ∧
    (installPackage rootEnv fsBarStored "low.uir" belowArchive).2 =
      [Msg.installing "low.uir", Msg.installationError] ∧
    lookup (installPackage rootEnv fsBarStored "low.uir" belowArchive).1 dbPath =
      some (Node.dir 493) := by
  decide

end Uir
